import Mathlib

/-!
Verification of the cppStream pull-stream library (src/cppStream.hpp).

A shallow embedding: every C++ stream is modelled as a state type together with
a record of the three protocol operations (next, front, endless).  Mutating
member functions become state-passing functions, std::optional becomes Option,
the size_t counters of take and skip are modelled as natural numbers reduced
modulo 2^64 at the points where the source performs wrapping arithmetic, and
the endless_stream_exception thrown by throw_if_endless becomes an Except
error.  The unbounded drain loops of terminal operations take an explicit fuel
argument; exhausting the fuel is reported as a distinguished non-result (none)
so that it can never be confused with a completed drain.
-/

namespace cppStream

/-- Modulus of the size_t arithmetic used by TakeStream and SkipStream; the
source stores count + 1 in a size_t, modelled here as a 64-bit word. -/
def WORD : Nat := 2 ^ 64

/-- The single checked error of the library: endless_stream_exception, raised
by throw_if_endless when a terminal operation receives an endless stream. -/
inductive StreamError where
  | endless_stream_exception
  deriving DecidableEq

/-- The pull protocol of the library: next attempts to advance and reports
success together with the mutated state, front peeks at the current value
(none models the undefined result of front before a successful advance), and
endless is the structural finiteness predicate. -/
structure StreamOps (σ α : Type) where
  next : σ → Bool × σ
  front : σ → Option α
  endless : σ → Bool

/-- Instrumentation wrapper: pairs a stream state with a counter of how many
times next has been invoked, to state consumption claims literally. -/
def counted (ops : StreamOps σ α) : StreamOps (σ × Nat) α where
  next := fun p => ((ops.next p.1).1, ((ops.next p.1).2, p.2 + 1))
  front := fun p => ops.front p.1
  endless := fun p => ops.endless p.1

/-- IteratorStream: the bounded cursor source.  The current/upcoming/last
iterator triple over a container is modelled by the optional current element
and the list of elements still upcoming; the unchecked flag is the value
reported by endless. -/
structure IteratorStream (α : Type) where
  current : Option α
  upcoming : List α
  unchecked : Bool
  deriving DecidableEq

/-- IteratorStream::next: upcoming == last gives false, otherwise the current
value becomes the next upcoming element. -/
def IteratorStream.next : IteratorStream α → Bool × IteratorStream α
  | ⟨cur, [], u⟩ => (false, ⟨cur, [], u⟩)
  | ⟨_, x :: xs, u⟩ => (true, ⟨some x, xs, u⟩)

/-- IteratorStream::front: dereference the current iterator. -/
def IteratorStream.front (s : IteratorStream α) : Option α := s.current

/-- IteratorStream::endless returns the caller-supplied unchecked flag. -/
def IteratorStream.endless (s : IteratorStream α) : Bool := s.unchecked

def IteratorStream.ops (α : Type) : StreamOps (IteratorStream α) α :=
  ⟨IteratorStream.next, IteratorStream.front, IteratorStream.endless⟩

/-- from / from_iterator over a container holding the elements of l. -/
def fromList (l : List α) : IteratorStream α := ⟨none, l, false⟩

/-- IntegerStream: the arithmetic-progression source (iota). -/
structure IntegerStream where
  current : Int
  step : Int
  deriving DecidableEq

/-- IntegerStream::next: current += step, always true. -/
def IntegerStream.next (s : IntegerStream) : Bool × IntegerStream :=
  (true, ⟨s.current + s.step, s.step⟩)

def IntegerStream.front (s : IntegerStream) : Option Int := some s.current

def IntegerStream.endless (_ : IntegerStream) : Bool := true

def IntegerStream.ops : StreamOps IntegerStream Int :=
  ⟨IntegerStream.next, IntegerStream.front, IntegerStream.endless⟩

/-- iota(first, step): the constructor initializes current to first - step. -/
def iota (first step : Int) : IntegerStream := ⟨first - step, step⟩

/-- TakeStream state: the owned upstream and the size_t counter. -/
structure TakeState (σ : Type) where
  stream : σ
  count : Nat
  deriving DecidableEq

/-- TakeStream constructor: stores count + 1 in a size_t counter. -/
def TakeStream.mk' (stream : σ) (count : Nat) : TakeState σ :=
  ⟨stream, (count + 1) % WORD⟩

/-- TakeStream::next: return count && --count != 0 && stream.next(). -/
def TakeStream.next (ops : StreamOps σ α) (st : TakeState σ) : Bool × TakeState σ :=
  match st.count with
  | 0 => (false, ⟨st.stream, 0⟩)
  | c + 1 =>
    if c = 0 then (false, ⟨st.stream, 0⟩)
    else
      let r := ops.next st.stream
      (r.1, ⟨r.2, c⟩)

/-- TakeStream front delegates to the upstream; endless is constantly false. -/
def TakeStream.ops (ops : StreamOps σ α) : StreamOps (TakeState σ) α :=
  ⟨TakeStream.next ops, fun st => ops.front st.stream, fun _ => false⟩

/-- SkipStream state: the owned upstream and the size_t counter. -/
structure SkipState (σ : Type) where
  stream : σ
  count : Nat
  deriving DecidableEq

/-- SkipStream constructor: stores count + 1 in a size_t counter. -/
def SkipStream.mk' (stream : σ) (count : Nat) : SkipState σ :=
  ⟨stream, (count + 1) % WORD⟩

/-- The draining loop of SkipStream::next:
while(count && --count != 0 && stream.next());  The loop decrements the
counter once per iteration and advances the upstream while both the counter
stays nonzero and the upstream advances. -/
def SkipStream.loop (ops : StreamOps σ α) : σ → Nat → σ × Nat
  | s, 0 => (s, 0)
  | s, c + 1 =>
    if c = 0 then (s, 0)
    else
      let r := ops.next s
      if r.1 then SkipStream.loop ops r.2 c else (r.2, c)

/-- SkipStream::next: run the draining loop, then return stream.next(). -/
def SkipStream.next (ops : StreamOps σ α) (st : SkipState σ) : Bool × SkipState σ :=
  let p := SkipStream.loop ops st.stream st.count
  let r := ops.next p.1
  (r.1, ⟨r.2, p.2⟩)

def SkipStream.ops (ops : StreamOps σ α) : StreamOps (SkipState σ) α :=
  ⟨SkipStream.next ops, fun st => ops.front st.stream, fun st => ops.endless st.stream⟩

/-- std::min(a, b, comp): comp(b, a) ? b : a.  Ties return the first argument. -/
def stdMin (lt : α → α → Bool) (a b : α) : α := if lt b a then b else a

/-- std::max(a, b, comp): comp(a, b) ? b : a.  Ties return the first argument. -/
def stdMax (lt : α → α → Bool) (a b : α) : α := if lt a b then b else a

/-- Draining loop shared by ForEachBuilder and collect: repeatedly advance and
record each produced element in order; stops when next returns false.  The
fuel bounds the unbounded source loop, none meaning it ran out. -/
def drainList (ops : StreamOps σ α) : Nat → σ → Option (List α × σ)
  | 0, _ => none
  | fuel + 1, s =>
    let r := ops.next s
    if r.1 then
      match ops.front r.2 with
      | some v =>
        match drainList ops fuel r.2 with
        | some p => some (v :: p.1, p.2)
        | none => none
      | none => none
    else some ([], r.2)

/-- ForEachBuilder::build: throw_if_endless, then invoke the callback once per
element.  The returned list is the exact sequence of elements handed to the
callback; the final state is returned alongside to observe consumption. -/
def ForEachBuilder.build (ops : StreamOps σ α) (fuel : Nat) (s : σ) :
    σ × Except StreamError (Option (List α)) :=
  if ops.endless s then (s, .error .endless_stream_exception)
  else
    match drainList ops fuel s with
    | some p => (p.2, .ok (some p.1))
    | none => (s, .ok none)

/-- The fold loop of ReduceBuilder::build: init = biPred(init.value(), front). -/
def ReduceBuilder.loop (f : α → α → α) (ops : StreamOps σ α) : Nat → σ → α → Option (α × σ)
  | 0, _, _ => none
  | fuel + 1, s, acc =>
    let r := ops.next s
    if r.1 then
      match ops.front r.2 with
      | some v => ReduceBuilder.loop f ops fuel r.2 (f acc v)
      | none => none
    else some (acc, r.2)

/-- ReduceBuilder::build: throw_if_endless, seed with the first element if any,
then left-fold the rest; an empty stream gives the absent optional. -/
def ReduceBuilder.build (f : α → α → α) (ops : StreamOps σ α) (fuel : Nat) (s : σ) :
    σ × Except StreamError (Option (Option α)) :=
  if ops.endless s then (s, .error .endless_stream_exception)
  else
    let r := ops.next s
    if r.1 then
      match ops.front r.2 with
      | some v =>
        match ReduceBuilder.loop f ops fuel r.2 v with
        | some p => (p.2, .ok (some (some p.1)))
        | none => (r.2, .ok none)
      | none => (r.2, .ok none)
    else (r.2, .ok (some none))

/-- The loop of MinBuilder::build: init = std::min(stream.front(), init.value(), compare). -/
def MinBuilder.loop (lt : α → α → Bool) (ops : StreamOps σ α) : Nat → σ → α → Option (α × σ)
  | 0, _, _ => none
  | fuel + 1, s, acc =>
    let r := ops.next s
    if r.1 then
      match ops.front r.2 with
      | some v => MinBuilder.loop lt ops fuel r.2 (stdMin lt v acc)
      | none => none
    else some (acc, r.2)

/-- MinBuilder::build: throw_if_endless, then fold std::min over the elements. -/
def MinBuilder.build (lt : α → α → Bool) (ops : StreamOps σ α) (fuel : Nat) (s : σ) :
    σ × Except StreamError (Option (Option α)) :=
  if ops.endless s then (s, .error .endless_stream_exception)
  else
    let r := ops.next s
    if r.1 then
      match ops.front r.2 with
      | some v =>
        match MinBuilder.loop lt ops fuel r.2 v with
        | some p => (p.2, .ok (some (some p.1)))
        | none => (r.2, .ok none)
      | none => (r.2, .ok none)
    else (r.2, .ok (some none))

/-- The loop of MaxBuilder::build: init = std::max(stream.front(), init.value(), compare). -/
def MaxBuilder.loop (lt : α → α → Bool) (ops : StreamOps σ α) : Nat → σ → α → Option (α × σ)
  | 0, _, _ => none
  | fuel + 1, s, acc =>
    let r := ops.next s
    if r.1 then
      match ops.front r.2 with
      | some v => MaxBuilder.loop lt ops fuel r.2 (stdMax lt v acc)
      | none => none
    else some (acc, r.2)

/-- MaxBuilder::build: throw_if_endless, then fold std::max over the elements. -/
def MaxBuilder.build (lt : α → α → Bool) (ops : StreamOps σ α) (fuel : Nat) (s : σ) :
    σ × Except StreamError (Option (Option α)) :=
  if ops.endless s then (s, .error .endless_stream_exception)
  else
    let r := ops.next s
    if r.1 then
      match ops.front r.2 with
      | some v =>
        match MaxBuilder.loop lt ops fuel r.2 v with
        | some p => (p.2, .ok (some (some p.1)))
        | none => (r.2, .ok none)
      | none => (r.2, .ok none)
    else (r.2, .ok (some none))

/-- The loop of MinMaxBuilder::build: tracks the running min and max. -/
def MinMaxBuilder.loop (lt : α → α → Bool) (ops : StreamOps σ α) :
    Nat → σ → α × α → Option ((α × α) × σ)
  | 0, _, _ => none
  | fuel + 1, s, mm =>
    let r := ops.next s
    if r.1 then
      match ops.front r.2 with
      | some v => MinMaxBuilder.loop lt ops fuel r.2 (stdMin lt v mm.1, stdMax lt v mm.2)
      | none => none
    else some (mm, r.2)

/-- MinMaxBuilder::build: throw_if_endless, then fold min and max together. -/
def MinMaxBuilder.build (lt : α → α → Bool) (ops : StreamOps σ α) (fuel : Nat) (s : σ) :
    σ × Except StreamError (Option (Option (α × α))) :=
  if ops.endless s then (s, .error .endless_stream_exception)
  else
    let r := ops.next s
    if r.1 then
      match ops.front r.2 with
      | some v =>
        match MinMaxBuilder.loop lt ops fuel r.2 (v, v) with
        | some p => (p.2, .ok (some (some p.1)))
        | none => (r.2, .ok none)
      | none => (r.2, .ok none)
    else (r.2, .ok (some none))

/-- The loop of AllMatchBuilder::build: short-circuits on the first element
failing the predicate. -/
def AllMatchBuilder.loop (p : α → Bool) (ops : StreamOps σ α) : Nat → σ → Option (Bool × σ)
  | 0, _ => none
  | fuel + 1, s =>
    let r := ops.next s
    if r.1 then
      match ops.front r.2 with
      | some v => if p v then AllMatchBuilder.loop p ops fuel r.2 else some (false, r.2)
      | none => none
    else some (true, r.2)

/-- AllMatchBuilder::build (FindAllBuilder alias all_match in the source). -/
def AllMatchBuilder.build (p : α → Bool) (ops : StreamOps σ α) (fuel : Nat) (s : σ) :
    σ × Except StreamError (Option Bool) :=
  if ops.endless s then (s, .error .endless_stream_exception)
  else
    match AllMatchBuilder.loop p ops fuel s with
    | some q => (q.2, .ok (some q.1))
    | none => (s, .ok none)

/-- The loop of AnyMatchBuilder::build: short-circuits on the first match. -/
def AnyMatchBuilder.loop (p : α → Bool) (ops : StreamOps σ α) : Nat → σ → Option (Bool × σ)
  | 0, _ => none
  | fuel + 1, s =>
    let r := ops.next s
    if r.1 then
      match ops.front r.2 with
      | some v => if p v then some (true, r.2) else AnyMatchBuilder.loop p ops fuel r.2
      | none => none
    else some (false, r.2)

/-- AnyMatchBuilder::build. -/
def AnyMatchBuilder.build (p : α → Bool) (ops : StreamOps σ α) (fuel : Nat) (s : σ) :
    σ × Except StreamError (Option Bool) :=
  if ops.endless s then (s, .error .endless_stream_exception)
  else
    match AnyMatchBuilder.loop p ops fuel s with
    | some q => (q.2, .ok (some q.1))
    | none => (s, .ok none)

/-- NoneMatchBuilder::build: like AnyMatch with the answer negated. -/
def NoneMatchBuilder.build (p : α → Bool) (ops : StreamOps σ α) (fuel : Nat) (s : σ) :
    σ × Except StreamError (Option Bool) :=
  if ops.endless s then (s, .error .endless_stream_exception)
  else
    match AnyMatchBuilder.loop p ops fuel s with
    | some q => (q.2, .ok (some (!q.1)))
    | none => (s, .ok none)

/-- The loop of CountBuilder::build: while(stream.next()) ++counter. -/
def CountBuilder.loop (ops : StreamOps σ α) : Nat → σ → Nat → Option (Nat × σ)
  | 0, _, _ => none
  | fuel + 1, s, counter =>
    let r := ops.next s
    if r.1 then CountBuilder.loop ops fuel r.2 (counter + 1) else some (counter, r.2)

/-- CountBuilder::build: throw_if_endless, then count the elements on top of
the caller-supplied counter (modelled as a natural number). -/
def CountBuilder.build (ops : StreamOps σ α) (fuel : Nat) (counter : Nat) (s : σ) :
    σ × Except StreamError (Option Nat) :=
  if ops.endless s then (s, .error .endless_stream_exception)
  else
    match CountBuilder.loop ops fuel s counter with
    | some q => (q.2, .ok (some q.1))
    | none => (s, .ok none)

/-- collect(container, collector): folds each element into the container via
for_each; the guard is the one performed by the inner for_each. -/
def CollectBuilder.build (cont : γ) (ins : γ → α → γ) (ops : StreamOps σ α)
    (fuel : Nat) (s : σ) : σ × Except StreamError (Option γ) :=
  if ops.endless s then (s, .error .endless_stream_exception)
  else
    match drainList ops fuel s with
    | some p => (p.2, .ok (some (p.1.foldl ins cont)))
    | none => (s, .ok none)

/-- first(): stream.next() ? optional(stream.front()) : nullopt.  Note there
is no throw_if_endless here in the source. -/
def first (ops : StreamOps σ α) (s : σ) : Option α × σ :=
  let r := ops.next s
  (if r.1 then ops.front r.2 else none, r.2)

/-- element_at(pos): stream >> skip(pos) >> first().  Again no endless guard. -/
def element_at (ops : StreamOps σ α) (pos : Nat) (s : σ) : Option α × SkipState σ :=
  first (SkipStream.ops ops) (SkipStream.mk' s pos)

/-- MapStream state: the owned upstream plus the cached mapped value. -/
structure MapState (σ β : Type) where
  stream : σ
  cache_value : Option β
  deriving DecidableEq

/-- MapStream::next: while(stream.next()) if(cache_value = pred(front)) return
true; return false.  The optional returned by pred is assigned to the cache
and tested: an absent result keeps looping, so an absent value is never
surfaced.  The fuel bounds the unbounded loop. -/
def MapStream.next (pred : α → Option β) (ops : StreamOps σ α) :
    Nat → MapState σ β → Bool × MapState σ β
  | 0, st => (false, st)
  | fuel + 1, st =>
    let r := ops.next st.stream
    if r.1 then
      match ops.front r.2 with
      | some v =>
        match pred v with
        | some w => (true, ⟨r.2, some w⟩)
        | none => MapStream.next pred ops fuel ⟨r.2, none⟩
      | none => (false, ⟨r.2, st.cache_value⟩)
    else (false, ⟨r.2, st.cache_value⟩)

/-- MapStream::front: dereference the cached value. -/
def MapStream.front (st : MapState σ β) : Option β := st.cache_value

/-- Insertion into a sorted list used to model std::stable_sort: the inserted
element passes exactly the elements strictly below it, so among equally ranked
elements the earlier-inserted one stays behind it. -/
def insertSorted (lt : α → α → Bool) (x : α) : List α → List α
  | [] => [x]
  | y :: ys => if lt y x then y :: insertSorted lt x ys else x :: y :: ys

/-- Model of std::stable_sort(buffer, compare): a stable insertion sort.
Earlier elements are inserted last, so each stops in front of all elements it
does not strictly exceed, preserving the original order of equal ranks. -/
def stableSort (lt : α → α → Bool) : List α → List α
  | [] => []
  | x :: xs => insertSorted lt x (stableSort lt xs)

/-- The drain loop shared by SortStream, ReverseStream and the FlatStream
constructor: while(stream.next()) buffer.push_back(stream.front()); returns
the exhausted cursor together with the buffered elements. -/
def IteratorStream.drainFront : IteratorStream α → IteratorStream α × List α
  | ⟨cur, [], u⟩ => (⟨cur, [], u⟩, [])
  | ⟨_, x :: xs, u⟩ =>
    let p := IteratorStream.drainFront ⟨some x, xs, u⟩
    (p.1, x :: p.2)
  termination_by s => s.upcoming.length
  decreasing_by simp

/-- SortStream state: the owned upstream cursor, the sorted buffer, and the
serving index (current). -/
structure SortState (α : Type) where
  stream : IteratorStream α
  sorted : List α
  current : Nat
  deriving DecidableEq

/-- SortStream constructor: empty buffer, current = 0. -/
def SortStream.mk' (stream : IteratorStream α) : SortState α := ⟨stream, [], 0⟩

/-- SortStream::next: if(!current++) { drain upstream into the buffer;
std::stable_sort(buffer, compare); } return current - 1 < sorted.size(); with
the incremented current, the returned comparison is oldCurrent < size. -/
def SortStream.next (lt : α → α → Bool) (st : SortState α) : Bool × SortState α :=
  if st.current = 0 then
    let p := st.stream.drainFront
    let buf := stableSort lt (st.sorted ++ p.2)
    (decide (0 < buf.length), ⟨p.1, buf, st.current + 1⟩)
  else
    (decide (st.current < st.sorted.length), ⟨st.stream, st.sorted, st.current + 1⟩)

/-- SortStream::front: sorted[current - 1]. -/
def SortStream.ops (lt : α → α → Bool) : StreamOps (SortState α) α :=
  ⟨SortStream.next lt, fun st => st.sorted.get? (st.current - 1),
    fun st => st.stream.endless⟩

/-- FlatStream state: the buffered component streams and the index of the one
currently being served. -/
structure FlatState (ι : Type) where
  streams : List ι
  current : Nat
  deriving DecidableEq

/-- FlatStream constructor: eagerly drains the outer stream-of-streams into
the buffer of component streams. -/
def FlatStream.mk' (outer : IteratorStream ι) : FlatState ι :=
  ⟨outer.drainFront.2, 0⟩

/-- FlatStream::next: current != streams.size() && (streams[current].next()
|| (++current && next())); advances the buffered sub-stream in place and, on
exhaustion, recurses on the following one. -/
def FlatStream.next (inOps : StreamOps ι α) (st : FlatState ι) : Bool × FlatState ι :=
  if h : st.current < st.streams.length then
    let r := inOps.next (st.streams.get ⟨st.current, h⟩)
    if r.1 then (true, ⟨st.streams.set st.current r.2, st.current⟩)
    else FlatStream.next inOps ⟨st.streams.set st.current r.2, st.current + 1⟩
  else (false, st)
  termination_by st.streams.length - st.current
  decreasing_by simp only [List.length_set]; omega

/-- FlatStream::endless: std::all_of over the buffered sub-streams. -/
def FlatStream.endless (inOps : StreamOps ι α) (st : FlatState ι) : Bool :=
  st.streams.all inOps.endless

/-- FlatStream::front: streams[current].front(). -/
def FlatStream.ops (inOps : StreamOps ι α) : StreamOps (FlatState ι) α :=
  ⟨FlatStream.next inOps,
    fun st => (st.streams.get? st.current).bind inOps.front,
    FlatStream.endless inOps⟩

/-- EndlessFlatStream state: the owned outer stream of streams (modelled over
an iterator source of inner-stream states) and the bootstrap latch left. -/
structure EFlatState (ι : Type) where
  stream : IteratorStream ι
  left : Bool
  deriving DecidableEq

/-- EndlessFlatStream::next:
return (left && stream.front().next())
    || ((left = (left = false, stream.next())) && stream.front().next());
The first disjunct advances the current inner stream while the latch is set;
on failure the latch is reassigned from an outer advance and, when the outer
advances, the freshly pulled inner stream is advanced once and its verdict
returned.  Mutations of stream.front() write through to the outer current
slot.  A missing current value (front before any outer advance, undefined in
the source) yields false. -/
def EndlessFlatStream.next (inOps : StreamOps ι α) (st : EFlatState ι) :
    Bool × EFlatState ι :=
  let step1 : Bool × EFlatState ι :=
    if st.left then
      match st.stream.current with
      | some inner =>
        let r := inOps.next inner
        (r.1, ⟨⟨some r.2, st.stream.upcoming, st.stream.unchecked⟩, st.left⟩)
      | none => (false, st)
    else (false, st)
  if step1.1 then step1
  else
    let q := step1.2.stream.next
    if q.1 then
      match q.2.current with
      | some inner =>
        let r := inOps.next inner
        (r.1, ⟨⟨some r.2, q.2.upcoming, q.2.unchecked⟩, true⟩)
      | none => (false, ⟨q.2, true⟩)
    else (false, ⟨q.2, false⟩)

/-- EndlessFlatStream::front: stream.front().front(). -/
def EndlessFlatStream.front (inOps : StreamOps ι α) (st : EFlatState ι) : Option α :=
  st.stream.current.bind inOps.front

/-- JoinStreamAB state: the two owned upstreams and the flag B selecting the
second one for front. -/
structure JoinABState (σa σb : Type) where
  streamA : σa
  streamB : σb
  B : Bool
  deriving DecidableEq

/-- JoinStreamAB::next: streamA.next() || (B = true, streamB.next()). -/
def JoinStreamAB.next (opsa : StreamOps σa α) (opsb : StreamOps σb α)
    (st : JoinABState σa σb) : Bool × JoinABState σa σb :=
  let ra := opsa.next st.streamA
  if ra.1 then (true, ⟨ra.2, st.streamB, st.B⟩)
  else
    let rb := opsb.next st.streamB
    (rb.1, ⟨ra.2, rb.2, true⟩)

/-- JoinStreamAB::endless: streamA.endless() || streamB.endless(). -/
def JoinStreamAB.endless (opsa : StreamOps σa α) (opsb : StreamOps σb α)
    (st : JoinABState σa σb) : Bool :=
  opsa.endless st.streamA || opsb.endless st.streamB

/-- endless() of the variadic JoinStreams tower over a homogeneous list of
constituents: JoinStreams of A, Rest... inherits JoinStreamAB of A and
JoinStreams of Rest..., whose endless is the disjunction down the chain; the
two-stream base case is JoinStreamAB itself. -/
def JoinStreams.endless (ops : StreamOps σ α) : List σ → Bool
  | [] => false
  | [s] => ops.endless s
  | s :: rest => ops.endless s || JoinStreams.endless ops rest

/-- CombineStreams state: the owned tuple of upstreams (homogeneous list
model) and the cached combined value. -/
structure CombineState (σ β : Type) where
  streams : List σ
  cache : Option β
  deriving DecidableEq

/-- The fold expression (streams.next() && ...) of CombineStreams::next: a
short-circuiting conjunction, advancing the constituents left to right and
stopping at the first failure. -/
def CombineStreams.advance (ops : StreamOps σ α) : List σ → Bool × List σ
  | [] => (true, [])
  | s :: ss =>
    let r := ops.next s
    if r.1 then
      let q := CombineStreams.advance ops ss
      (q.1, r.2 :: q.2)
    else (false, r.2 :: ss)

/-- The argument tuple streams.front()... handed to the combining function;
Inhabited.default stands for the undefined front of an unadvanced stream. -/
def CombineStreams.fronts [Inhabited α] (ops : StreamOps σ α) (ss : List σ) : List α :=
  ss.map fun s => (ops.front s).getD default

/-- CombineStreams::next: if all constituents advance, assign
cache = pred(streams.front()...) and return true unconditionally (the comma
operator); otherwise return false. -/
def CombineStreams.next [Inhabited α] (pred : List α → Option β)
    (ops : StreamOps σ α) (st : CombineState σ β) : Bool × CombineState σ β :=
  let q := CombineStreams.advance ops st.streams
  if q.1 then (true, ⟨q.2, pred (CombineStreams.fronts ops q.2)⟩)
  else (false, ⟨q.2, st.cache⟩)

/-- CombineStreams::front: dereference the cache. -/
def CombineStreams.front (st : CombineState σ β) : Option β := st.cache

/-- CombineStreams::endless: the fold (streams.endless() && ...). -/
def CombineStreams.endless (ops : StreamOps σ α) : List σ → Bool
  | [] => true
  | s :: ss => ops.endless s && CombineStreams.endless ops ss

/-- Strict comparison of pairs by first component only: a comparator under
which (1, 0) and (1, 1) are equally ranked but distinguishable values. -/
def ltPair (a b : Nat × Nat) : Bool := decide (a.1 < b.1)

/-- The natural strict order on Fin 2, a decidably checkable strict weak
order used to instantiate comparator hypotheses. -/
def ltFin (a b : Fin 2) : Bool := decide (a < b)

/-- Iterate next n times and keep the resulting state. -/
def stepN (ops : StreamOps σ α) : Nat → σ → σ
  | 0, s => s
  | n + 1, s => stepN ops n (ops.next s).2

/-- A state is dead when every future advance fails: next returns false now
and after any number of further next calls. -/
def Dead (ops : StreamOps σ α) (s : σ) : Prop :=
  ∀ n, (ops.next (stepN ops n s)).1 = false

/-- The observable element count of a stream state: it advances successfully
exactly k times and is dead afterwards. -/
inductive Produces (ops : StreamOps σ α) : σ → Nat → Prop where
  | zero : ∀ {s : σ}, Dead ops s → Produces ops s 0
  | succ : ∀ {s s' : σ} {k : Nat}, ops.next s = (true, s') → Produces ops s' k →
      Produces ops s (k + 1)

/-! Theorems.  First the behaviour of the throw_if_endless guard shared by all
draining terminal builders, in both directions. -/

theorem forEach_build_endless (ops : StreamOps σ α) (fuel : Nat) (s : σ)
    (h : ops.endless s = true) :
    ForEachBuilder.build ops fuel s = (s, .error .endless_stream_exception) := by
  simp [ForEachBuilder.build, h]

theorem reduce_build_endless (f : α → α → α) (ops : StreamOps σ α) (fuel : Nat) (s : σ)
    (h : ops.endless s = true) :
    ReduceBuilder.build f ops fuel s = (s, .error .endless_stream_exception) := by
  simp [ReduceBuilder.build, h]

theorem min_build_endless (lt : α → α → Bool) (ops : StreamOps σ α) (fuel : Nat) (s : σ)
    (h : ops.endless s = true) :
    MinBuilder.build lt ops fuel s = (s, .error .endless_stream_exception) := by
  simp [MinBuilder.build, h]

theorem max_build_endless (lt : α → α → Bool) (ops : StreamOps σ α) (fuel : Nat) (s : σ)
    (h : ops.endless s = true) :
    MaxBuilder.build lt ops fuel s = (s, .error .endless_stream_exception) := by
  simp [MaxBuilder.build, h]

theorem minmax_build_endless (lt : α → α → Bool) (ops : StreamOps σ α) (fuel : Nat) (s : σ)
    (h : ops.endless s = true) :
    MinMaxBuilder.build lt ops fuel s = (s, .error .endless_stream_exception) := by
  simp [MinMaxBuilder.build, h]

theorem allMatch_build_endless (p : α → Bool) (ops : StreamOps σ α) (fuel : Nat) (s : σ)
    (h : ops.endless s = true) :
    AllMatchBuilder.build p ops fuel s = (s, .error .endless_stream_exception) := by
  simp [AllMatchBuilder.build, h]

theorem anyMatch_build_endless (p : α → Bool) (ops : StreamOps σ α) (fuel : Nat) (s : σ)
    (h : ops.endless s = true) :
    AnyMatchBuilder.build p ops fuel s = (s, .error .endless_stream_exception) := by
  simp [AnyMatchBuilder.build, h]

theorem noneMatch_build_endless (p : α → Bool) (ops : StreamOps σ α) (fuel : Nat) (s : σ)
    (h : ops.endless s = true) :
    NoneMatchBuilder.build p ops fuel s = (s, .error .endless_stream_exception) := by
  simp [NoneMatchBuilder.build, h]

theorem count_build_endless (ops : StreamOps σ α) (fuel counter : Nat) (s : σ)
    (h : ops.endless s = true) :
    CountBuilder.build ops fuel counter s = (s, .error .endless_stream_exception) := by
  simp [CountBuilder.build, h]

theorem collect_build_endless (cont : γ) (ins : γ → α → γ) (ops : StreamOps σ α)
    (fuel : Nat) (s : σ) (h : ops.endless s = true) :
    CollectBuilder.build cont ins ops fuel s = (s, .error .endless_stream_exception) := by
  simp [CollectBuilder.build, h]

theorem forEach_build_ok (ops : StreamOps σ α) (fuel : Nat) (s : σ)
    (h : ops.endless s = false) :
    ∃ r, (ForEachBuilder.build ops fuel s).2 = .ok r := by
  unfold ForEachBuilder.build
  rw [h]
  simp only [Bool.false_eq_true, if_false]
  split <;> exact ⟨_, rfl⟩

theorem reduce_build_ok (f : α → α → α) (ops : StreamOps σ α) (fuel : Nat) (s : σ)
    (h : ops.endless s = false) :
    ∃ r, (ReduceBuilder.build f ops fuel s).2 = .ok r := by
  unfold ReduceBuilder.build
  rw [h]
  simp only [Bool.false_eq_true, if_false]
  repeat' split
  all_goals exact ⟨_, rfl⟩

theorem min_build_ok (lt : α → α → Bool) (ops : StreamOps σ α) (fuel : Nat) (s : σ)
    (h : ops.endless s = false) :
    ∃ r, (MinBuilder.build lt ops fuel s).2 = .ok r := by
  unfold MinBuilder.build
  rw [h]
  simp only [Bool.false_eq_true, if_false]
  repeat' split
  all_goals exact ⟨_, rfl⟩

theorem max_build_ok (lt : α → α → Bool) (ops : StreamOps σ α) (fuel : Nat) (s : σ)
    (h : ops.endless s = false) :
    ∃ r, (MaxBuilder.build lt ops fuel s).2 = .ok r := by
  unfold MaxBuilder.build
  rw [h]
  simp only [Bool.false_eq_true, if_false]
  repeat' split
  all_goals exact ⟨_, rfl⟩

theorem minmax_build_ok (lt : α → α → Bool) (ops : StreamOps σ α) (fuel : Nat) (s : σ)
    (h : ops.endless s = false) :
    ∃ r, (MinMaxBuilder.build lt ops fuel s).2 = .ok r := by
  unfold MinMaxBuilder.build
  rw [h]
  simp only [Bool.false_eq_true, if_false]
  repeat' split
  all_goals exact ⟨_, rfl⟩

theorem allMatch_build_ok (p : α → Bool) (ops : StreamOps σ α) (fuel : Nat) (s : σ)
    (h : ops.endless s = false) :
    ∃ r, (AllMatchBuilder.build p ops fuel s).2 = .ok r := by
  unfold AllMatchBuilder.build
  rw [h]
  simp only [Bool.false_eq_true, if_false]
  split <;> exact ⟨_, rfl⟩

theorem anyMatch_build_ok (p : α → Bool) (ops : StreamOps σ α) (fuel : Nat) (s : σ)
    (h : ops.endless s = false) :
    ∃ r, (AnyMatchBuilder.build p ops fuel s).2 = .ok r := by
  unfold AnyMatchBuilder.build
  rw [h]
  simp only [Bool.false_eq_true, if_false]
  split <;> exact ⟨_, rfl⟩

theorem noneMatch_build_ok (p : α → Bool) (ops : StreamOps σ α) (fuel : Nat) (s : σ)
    (h : ops.endless s = false) :
    ∃ r, (NoneMatchBuilder.build p ops fuel s).2 = .ok r := by
  unfold NoneMatchBuilder.build
  rw [h]
  simp only [Bool.false_eq_true, if_false]
  split <;> exact ⟨_, rfl⟩

theorem count_build_ok (ops : StreamOps σ α) (fuel counter : Nat) (s : σ)
    (h : ops.endless s = false) :
    ∃ r, (CountBuilder.build ops fuel counter s).2 = .ok r := by
  unfold CountBuilder.build
  rw [h]
  simp only [Bool.false_eq_true, if_false]
  split <;> exact ⟨_, rfl⟩

theorem collect_build_ok (cont : γ) (ins : γ → α → γ) (ops : StreamOps σ α)
    (fuel : Nat) (s : σ) (h : ops.endless s = false) :
    ∃ r, (CollectBuilder.build cont ins ops fuel s).2 = .ok r := by
  unfold CollectBuilder.build
  rw [h]
  simp only [Bool.false_eq_true, if_false]
  split <;> exact ⟨_, rfl⟩

/-- C1, amended.  Every draining terminal builder (for-each, reduce, min, max,
minmax, all/any/none-match, count, collect) first runs throw_if_endless: on a
stream whose endless() is true it returns the non-terminating-pipeline error
with the stream state untouched (hence zero next calls), and on a stream whose
endless() is false it never raises that error.  first() and element_at(),
however, perform no endless check: first always issues exactly one next call
even on an endless stream, and element_at always issues at least one. -/
theorem C1_terminal_guard {σ α γ : Type} (ops : StreamOps σ α) (s : σ) (fuel : Nat)
    (f : α → α → α) (lt : α → α → Bool) (p : α → Bool) (cont : γ) (ins : γ → α → γ)
    (pos : Nat) :
    (ops.endless s = true →
      ForEachBuilder.build ops fuel s = (s, .error .endless_stream_exception)
      ∧ ReduceBuilder.build f ops fuel s = (s, .error .endless_stream_exception)
      ∧ MinBuilder.build lt ops fuel s = (s, .error .endless_stream_exception)
      ∧ MaxBuilder.build lt ops fuel s = (s, .error .endless_stream_exception)
      ∧ MinMaxBuilder.build lt ops fuel s = (s, .error .endless_stream_exception)
      ∧ AllMatchBuilder.build p ops fuel s = (s, .error .endless_stream_exception)
      ∧ AnyMatchBuilder.build p ops fuel s = (s, .error .endless_stream_exception)
      ∧ NoneMatchBuilder.build p ops fuel s = (s, .error .endless_stream_exception)
      ∧ CountBuilder.build ops fuel 0 s = (s, .error .endless_stream_exception)
      ∧ CollectBuilder.build cont ins ops fuel s = (s, .error .endless_stream_exception))
    ∧ (ops.endless s = false →
      (∃ r, (ForEachBuilder.build ops fuel s).2 = .ok r)
      ∧ (∃ r, (ReduceBuilder.build f ops fuel s).2 = .ok r)
      ∧ (∃ r, (MinBuilder.build lt ops fuel s).2 = .ok r)
      ∧ (∃ r, (MaxBuilder.build lt ops fuel s).2 = .ok r)
      ∧ (∃ r, (MinMaxBuilder.build lt ops fuel s).2 = .ok r)
      ∧ (∃ r, (AllMatchBuilder.build p ops fuel s).2 = .ok r)
      ∧ (∃ r, (AnyMatchBuilder.build p ops fuel s).2 = .ok r)
      ∧ (∃ r, (NoneMatchBuilder.build p ops fuel s).2 = .ok r)
      ∧ (∃ r, (CountBuilder.build ops fuel 0 s).2 = .ok r)
      ∧ (∃ r, (CollectBuilder.build cont ins ops fuel s).2 = .ok r))
    ∧ (first (counted ops) (s, 0)).2.2 = 1
    ∧ 1 ≤ (element_at (counted ops) pos (s, 0)).2.stream.2 := by
  refine ⟨fun h => ?_, fun h => ?_, ?_, ?_⟩
  · exact ⟨forEach_build_endless ops fuel s h, reduce_build_endless f ops fuel s h,
      min_build_endless lt ops fuel s h, max_build_endless lt ops fuel s h,
      minmax_build_endless lt ops fuel s h, allMatch_build_endless p ops fuel s h,
      anyMatch_build_endless p ops fuel s h, noneMatch_build_endless p ops fuel s h,
      count_build_endless ops fuel 0 s h, collect_build_endless cont ins ops fuel s h⟩
  · exact ⟨forEach_build_ok ops fuel s h, reduce_build_ok f ops fuel s h,
      min_build_ok lt ops fuel s h, max_build_ok lt ops fuel s h,
      minmax_build_ok lt ops fuel s h, allMatch_build_ok p ops fuel s h,
      anyMatch_build_ok p ops fuel s h, noneMatch_build_ok p ops fuel s h,
      count_build_ok ops fuel 0 s h, collect_build_ok cont ins ops fuel s h⟩
  · rfl
  · simp only [element_at, first, SkipStream.next, SkipStream.ops, SkipStream.mk', counted]
    omega

/-- C1, counterexample to the claim as stated: first() is a terminal
operation, yet on the endless iota stream it raises no error and consumes one
element (one next call), returning the first value. -/
theorem C1_first_no_guard_cex :
    IntegerStream.ops.endless (iota 0 1) = true
    ∧ first (counted IntegerStream.ops) (iota 0 1, 0)
        = (some 0, (⟨0, 1⟩, 1)) := by
  exact ⟨rfl, by decide⟩

/-- C1 witness: the guard conjuncts applied at concrete endless and
non-endless streams. -/
theorem C1_terminal_guard_witness :
    ForEachBuilder.build IntegerStream.ops 1 (iota 0 1)
      = (iota 0 1, .error .endless_stream_exception)
    ∧ (∃ r, (ForEachBuilder.build (IteratorStream.ops Nat) 1 (fromList [1])).2 = .ok r) := by
  constructor
  · exact ((C1_terminal_guard IntegerStream.ops (iota 0 1) 1 (fun a _ => a)
      (fun _ _ => false) (fun _ => true) () (fun g _ => g) 0).1 rfl).1
  · exact ((C1_terminal_guard (IteratorStream.ops Nat) (fromList [1]) 1 (fun a _ => a)
      (fun _ _ => false) (fun _ => true) () (fun g _ => g) 0).2.1 rfl).1

/-- C3: evaluating CombineStreams at the failing input.  Both singleton
streams advance, the combining function returns the absent optional, and next
still returns true while the cache stays absent, so front() observes an
absent value; MapStream at the analogous input instead keeps looping and
returns false, never surfacing the absent tick. -/
theorem C3_combine_absent_surfaced :
    CombineStreams.next (fun _ => (none : Option Nat)) (IteratorStream.ops Nat)
        ⟨[fromList [1], fromList [2]], none⟩
      = (true, ⟨[⟨some 1, [], false⟩, ⟨some 2, [], false⟩], none⟩)
    ∧ CombineStreams.front
        (⟨[⟨some 1, [], false⟩, ⟨some 2, [], false⟩], none⟩ :
          CombineState (IteratorStream Nat) Nat) = none
    ∧ MapStream.next (fun _ => (none : Option Nat)) (IteratorStream.ops Nat) 2
        ⟨fromList [1], none⟩
      = (false, ⟨⟨some 1, [], false⟩, none⟩) := by
  exact ⟨by decide, rfl, by decide⟩

theorem joinStreams_endless_eq_any (ops : StreamOps σ α) (l : List σ) :
    JoinStreams.endless ops l = l.any ops.endless := by
  induction l with
  | nil => rfl
  | cons s rest ih =>
    cases rest with
    | nil => simp [JoinStreams.endless]
    | cons t rest2 =>
      simp only [JoinStreams.endless, List.any_cons]
      rw [ih]
      simp [List.any_cons]

theorem combineStreams_endless_eq_all (ops : StreamOps σ α) (l : List σ) :
    CombineStreams.endless ops l = l.all ops.endless := by
  induction l with
  | nil => rfl
  | cons s rest ih => simp [CombineStreams.endless, ih]

/-- C4: endless() of an N-ary join is true iff at least one constituent is
endless (the nested JoinStreamAB chain takes the disjunction), and endless()
of an N-ary combine is true iff every constituent is endless (the fold takes
the conjunction). -/
theorem C4_join_or_combine_and {σ α : Type} (ops : StreamOps σ α) (l : List σ)
    (_h : 2 ≤ l.length) :
    (JoinStreams.endless ops l = true ↔ ∃ s ∈ l, ops.endless s = true)
    ∧ (CombineStreams.endless ops l = true ↔ ∀ s ∈ l, ops.endless s = true) := by
  rw [joinStreams_endless_eq_any, combineStreams_endless_eq_all]
  exact ⟨List.any_eq_true, List.all_eq_true⟩

/-- C4 witness: join of one endless and one finite stream is endless, combine
of the two is not. -/
theorem C4_join_or_combine_and_witness :
    (JoinStreams.endless (IteratorStream.ops Nat)
        [⟨none, [], true⟩, fromList []] = true
      ↔ ∃ s ∈ [(⟨none, [], true⟩ : IteratorStream Nat), fromList []],
          (IteratorStream.ops Nat).endless s = true)
    ∧ (CombineStreams.endless (IteratorStream.ops Nat)
        [⟨none, [], true⟩, fromList []] = true
      ↔ ∀ s ∈ [(⟨none, [], true⟩ : IteratorStream Nat), fromList []],
          (IteratorStream.ops Nat).endless s = true) :=
  C4_join_or_combine_and (IteratorStream.ops Nat) _ (by decide)

/-- C9: take(n) stores n + 1 in a size_t counter, so at n = 2^64 - 1 the
counter wraps to 0 and the stream yields nothing: every advance returns false
and leaves the state (and hence the upstream, and the instrumented next-call
counter) untouched. -/
theorem C9_take_counter_wrap {σ α : Type} (ops : StreamOps σ α) (s : σ) :
    (TakeStream.mk' s (WORD - 1)).count = 0
    ∧ TakeStream.next ops ⟨s, 0⟩ = (false, ⟨s, 0⟩)
    ∧ (∀ n, stepN (TakeStream.ops ops) n (TakeStream.mk' s (WORD - 1))
        = TakeStream.mk' s (WORD - 1))
    ∧ Dead (TakeStream.ops ops) (TakeStream.mk' s (WORD - 1)) := by
  have hc : TakeStream.mk' s (WORD - 1) = (⟨s, 0⟩ : TakeState σ) := by
    simp [TakeStream.mk', WORD]
  have hstep : ∀ n, stepN (TakeStream.ops ops) n (⟨s, 0⟩ : TakeState σ) = ⟨s, 0⟩ := by
    intro n
    induction n with
    | zero => rfl
    | succ n ih => exact ih
  refine ⟨by simp [TakeStream.mk', WORD], rfl, ?_, ?_⟩
  · intro n
    rw [hc]
    exact hstep n
  · intro n
    rw [hc, hstep n]
    rfl

/-! Machinery relating states to the number of elements they still produce. -/

theorem dead_head {ops : StreamOps σ α} {s : σ} (h : Dead ops s) :
    (ops.next s).1 = false := h 0

theorem dead_tail {ops : StreamOps σ α} {s : σ} (h : Dead ops s) :
    Dead ops (ops.next s).2 := fun n => h (n + 1)

theorem dead_cons {ops : StreamOps σ α} {s : σ} (h1 : (ops.next s).1 = false)
    (h2 : Dead ops (ops.next s).2) : Dead ops s := by
  intro n
  cases n with
  | zero => exact h1
  | succ n => exact h2 n

theorem dead_of_next_eq {ops : StreamOps σ α} {s1 s2 : σ}
    (h : ops.next s1 = ops.next s2) (hd : Dead ops s2) : Dead ops s1 := by
  intro n
  cases n with
  | zero =>
    show (ops.next s1).1 = false
    rw [h]
    exact hd 0
  | succ n =>
    show (ops.next (stepN ops n (ops.next s1).2)).1 = false
    rw [h]
    exact hd (n + 1)

theorem produces_of_next_eq {ops : StreamOps σ α} {s1 s2 : σ} {k : Nat}
    (h : ops.next s1 = ops.next s2) (hp : Produces ops s2 k) : Produces ops s1 k := by
  cases hp with
  | zero hd => exact .zero (dead_of_next_eq h hd)
  | succ hn hp2 => exact .succ (h.trans hn) hp2

theorem iter_dead_of_no_upcoming (cur : Option α) (u : Bool) :
    Dead (IteratorStream.ops α) ⟨cur, [], u⟩ := by
  have hstep : ∀ n, stepN (IteratorStream.ops α) n (⟨cur, [], u⟩ : IteratorStream α)
      = ⟨cur, [], u⟩ := by
    intro n
    induction n with
    | zero => rfl
    | succ n ih => exact ih
  intro n
  rw [hstep n]
  rfl

theorem iter_produces (cur : Option α) (u : Bool) (l : List α) :
    Produces (IteratorStream.ops α) ⟨cur, l, u⟩ l.length := by
  induction l generalizing cur with
  | nil => exact .zero (iter_dead_of_no_upcoming cur u)
  | cons x xs ih => exact .succ rfl (ih (some x))

theorem take_dead_of_count_le_one {ops : StreamOps σ α} (s : σ) {c : Nat}
    (hc : c ≤ 1) : Dead (TakeStream.ops ops) ⟨s, c⟩ := by
  have h0 : ∀ n, stepN (TakeStream.ops ops) n (⟨s, 0⟩ : TakeState σ) = ⟨s, 0⟩ := by
    intro n
    induction n with
    | zero => rfl
    | succ n ih => exact ih
  have hd0 : Dead (TakeStream.ops ops) (⟨s, 0⟩ : TakeState σ) := by
    intro n; rw [h0 n]; rfl
  interval_cases c
  · exact hd0
  · exact dead_cons rfl hd0

theorem take_dead {ops : StreamOps σ α} {s : σ} (hd : Dead ops s) (c : Nat) :
    Dead (TakeStream.ops ops) ⟨s, c⟩ := by
  have key : ∀ n c (s : σ), Dead ops s →
      (TakeStream.next ops (stepN (TakeStream.ops ops) n ⟨s, c⟩)).1 = false := by
    intro n
    induction n with
    | zero =>
      intro c s hds
      match c with
      | 0 => rfl
      | 1 => rfl
      | c + 2 =>
        show (TakeStream.next ops ⟨s, c + 2⟩).1 = false
        simp only [TakeStream.next]
        simp [dead_head hds]
    | succ n ih =>
      intro c s hds
      show (TakeStream.next ops (stepN (TakeStream.ops ops) n
        ((TakeStream.ops ops).next ⟨s, c⟩).2)).1 = false
      match c with
      | 0 => exact ih 0 s hds
      | 1 => exact ih 0 s hds
      | c + 2 =>
        have hst : ((TakeStream.ops ops).next ⟨s, c + 2⟩).2
            = (⟨(ops.next s).2, c + 1⟩ : TakeState σ) := by
          show (TakeStream.next ops ⟨s, c + 2⟩).2 = _
          simp only [TakeStream.next]
          simp [dead_head hds]
        rw [hst]
        exact ih (c + 1) (ops.next s).2 (dead_tail hds)
  exact fun n => key n c s hd

theorem take_produces {ops : StreamOps σ α} {s : σ} {k : Nat}
    (hp : Produces ops s k) : ∀ c, 1 ≤ c →
    Produces (TakeStream.ops ops) ⟨s, c⟩ (min (c - 1) k) := by
  induction hp with
  | zero hd =>
    intro c _
    rw [Nat.min_zero]
    exact .zero (take_dead hd c)
  | @succ s s' k hn _ ih =>
    intro c hc
    match c with
    | 1 =>
      rw [Nat.min_comm]
      rw [Nat.min_zero]
      exact .zero (take_dead_of_count_le_one s (by omega))
    | c + 2 =>
      have hnext : (TakeStream.ops ops).next ⟨s, c + 2⟩ = (true, ⟨s', c + 1⟩) := by
        show TakeStream.next ops ⟨s, c + 2⟩ = _
        simp only [TakeStream.next]
        simp [hn]
      have : Produces (TakeStream.ops ops) ⟨s', c + 1⟩ (min c k) := by
        have := ih (c + 1) (by omega)
        simpa using this
      have hmin : min (c + 2 - 1) (k + 1) = min c k + 1 := by omega
      rw [hmin]
      exact .succ hnext this

theorem skip_dead {ops : StreamOps σ α} {s : σ} (hd : Dead ops s) (c : Nat) :
    Dead (SkipStream.ops ops) ⟨s, c⟩ := by
  have hloop : ∀ c (s : σ), Dead ops s →
      ∃ s2, SkipStream.loop ops s c = (s2, (SkipStream.loop ops s c).2) ∧ Dead ops s2 := by
    intro c s hds
    match c with
    | 0 => exact ⟨s, rfl, hds⟩
    | 1 => exact ⟨s, rfl, hds⟩
    | c + 2 =>
      refine ⟨(ops.next s).2, ?_, dead_tail hds⟩
      show SkipStream.loop ops s (c + 2) = _
      simp only [SkipStream.loop]
      simp [dead_head hds]
  have key : ∀ n c (s : σ), Dead ops s →
      (SkipStream.next ops (stepN (SkipStream.ops ops) n ⟨s, c⟩)).1 = false := by
    intro n
    induction n with
    | zero =>
      intro c s hds
      obtain ⟨s2, heq, hd2⟩ := hloop c s hds
      show (SkipStream.next ops ⟨s, c⟩).1 = false
      simp only [SkipStream.next]
      rw [heq]
      exact dead_head hd2
    | succ n ih =>
      intro c s hds
      obtain ⟨s2, heq, hd2⟩ := hloop c s hds
      show (SkipStream.next ops (stepN (SkipStream.ops ops) n
        ((SkipStream.ops ops).next ⟨s, c⟩).2)).1 = false
      have hst : ((SkipStream.ops ops).next ⟨s, c⟩).2
          = (⟨(ops.next s2).2, (SkipStream.loop ops s c).2⟩ : SkipState σ) := by
        show (SkipStream.next ops ⟨s, c⟩).2 = _
        simp only [SkipStream.next]
        rw [heq]
      rw [hst]
      exact ih _ _ (dead_tail hd2)
  exact fun n => key n c s hd

theorem skip_produces_zero {ops : StreamOps σ α} {s : σ} {k : Nat}
    (hp : Produces ops s k) : Produces (SkipStream.ops ops) ⟨s, 0⟩ k := by
  induction hp with
  | zero hd => exact .zero (skip_dead hd 0)
  | @succ s s' k hn _ ih =>
    have hnext : (SkipStream.ops ops).next ⟨s, 0⟩ = (true, ⟨s', 0⟩) := by
      show SkipStream.next ops ⟨s, 0⟩ = _
      simp only [SkipStream.next, SkipStream.loop]
      simp [hn]
    exact .succ hnext ih

theorem skip_produces {ops : StreamOps σ α} : ∀ c, 1 ≤ c → ∀ {s : σ} {k : Nat},
    Produces ops s k → Produces (SkipStream.ops ops) ⟨s, c⟩ (k - (c - 1)) := by
  intro c
  induction c with
  | zero => omega
  | succ c ih =>
    intro _ s k hp
    match c, hp with
    | 0, .zero hd =>
      exact .zero (skip_dead hd 1)
    | 0, @Produces.succ _ _ _ s s' k hn hp2 =>
      have hnext : (SkipStream.ops ops).next ⟨s, 1⟩ = (true, ⟨s', 0⟩) := by
        show SkipStream.next ops ⟨s, 1⟩ = _
        simp only [SkipStream.next, SkipStream.loop]
        simp [hn]
      simpa using Produces.succ hnext (skip_produces_zero hp2)
    | c + 1, .zero hd =>
      simpa using Produces.zero (skip_dead hd (c + 2))
    | c + 1, @Produces.succ _ _ _ s s' k hn hp2 =>
      have heq : (SkipStream.ops ops).next ⟨s, c + 2⟩ = (SkipStream.ops ops).next ⟨s', c + 1⟩ := by
        show SkipStream.next ops ⟨s, c + 2⟩ = SkipStream.next ops ⟨s', c + 1⟩
        simp only [SkipStream.next, SkipStream.loop]
        simp [hn]
      have hrec : Produces (SkipStream.ops ops) ⟨s', c + 1⟩ (k - c) :=
        by simpa using ih (by omega) hp2
      have hval : k + 1 - (c + 2 - 1) = k - c := by omega
      rw [hval]
      exact produces_of_next_eq heq hrec

theorem count_loop_of_produces {ops : StreamOps σ α} {s : σ} {k : Nat}
    (hp : Produces ops s k) : ∀ fuel, k + 1 ≤ fuel → ∀ acc,
    ∃ s2, CountBuilder.loop ops fuel s acc = some (acc + k, s2) := by
  induction hp with
  | @zero s0 hd =>
    intro fuel hfuel acc
    obtain ⟨f, rfl⟩ : ∃ f, fuel = f + 1 := ⟨fuel - 1, by omega⟩
    refine ⟨(ops.next s0).2, ?_⟩
    simp only [CountBuilder.loop]
    simp [dead_head hd]
  | @succ s1 s2 k1 hn _ ih =>
    intro fuel hfuel acc
    obtain ⟨f, rfl⟩ : ∃ f, fuel = f + 1 := ⟨fuel - 1, by omega⟩
    obtain ⟨s3, h3⟩ := ih f (by omega) (acc + 1)
    refine ⟨s3, ?_⟩
    simp only [CountBuilder.loop]
    rw [hn]
    simp only
    rw [if_pos trivial, h3]
    have hacc : acc + 1 + k1 = acc + (k1 + 1) := by omega
    rw [hacc]

theorem count_build_of_produces {ops : StreamOps σ α} {s : σ} {k : Nat}
    (hp : Produces ops s k) (hend : ops.endless s = false) (fuel : Nat)
    (hfuel : k + 1 ≤ fuel) :
    ∃ s2, CountBuilder.build ops fuel 0 s = (s2, .ok (some k)) := by
  obtain ⟨s2, h2⟩ := count_loop_of_produces hp fuel hfuel 0
  refine ⟨s2, ?_⟩
  unfold CountBuilder.build
  rw [hend]
  simp only [Bool.false_eq_true, if_false]
  rw [h2]
  simp

/-- C5, amended.  For every n whose size_t counter does not wrap (n + 1 <
2^64), take(n) piped into count yields exactly min(n, L) on a finite source
of length L; and endless() of a take stream is always false.  (At n = 2^64-1
the counter wraps and the count is 0 instead, see the counterexample.) -/
theorem C5_take_count {α : Type} (l : List α) (n fuel : Nat)
    (hn : n + 1 < WORD) (hfuel : min n l.length + 1 ≤ fuel) :
    (∃ s2, CountBuilder.build (TakeStream.ops (IteratorStream.ops α)) fuel 0
        (TakeStream.mk' (fromList l) n) = (s2, .ok (some (min n l.length))))
    ∧ (∀ (σ2 : Type) (ops : StreamOps σ2 α) (st : TakeState σ2),
        (TakeStream.ops ops).endless st = false) := by
  constructor
  · have hmk : TakeStream.mk' (fromList l) n
        = (⟨fromList l, n + 1⟩ : TakeState (IteratorStream α)) := by
      simp [TakeStream.mk', Nat.mod_eq_of_lt hn]
    rw [hmk]
    have hp : Produces (TakeStream.ops (IteratorStream.ops α)) ⟨fromList l, n + 1⟩
        (min n l.length) := by
      have := take_produces (iter_produces none false l) (n + 1) (by omega)
      simpa using this
    exact count_build_of_produces hp rfl fuel hfuel
  · intro σ2 ops st
    rfl

/-- C5 counterexample at the word boundary: take(2^64 - 1) over the singleton
source counts 0 elements, not min(2^64 - 1, 1) = 1 — the claim fails for this
n. -/
theorem C5_take_count_cex :
    (CountBuilder.build (TakeStream.ops (IteratorStream.ops Nat)) 2 0
        (TakeStream.mk' (fromList [0]) (WORD - 1))).2 = .ok (some 0)
    ∧ min (WORD - 1) ([0] : List Nat).length = 1 := by
  exact ⟨rfl, by decide⟩

/-- C5 witness at a concrete non-wrapping input. -/
theorem C5_take_count_witness :
    (∃ s2, CountBuilder.build (TakeStream.ops (IteratorStream.ops Nat)) 10 0
        (TakeStream.mk' (fromList [10, 20, 30]) 2)
      = (s2, .ok (some (min 2 ([10, 20, 30] : List Nat).length))))
    ∧ (∀ (σ2 : Type) (ops : StreamOps σ2 Nat) (st : TakeState σ2),
        (TakeStream.ops ops).endless st = false) :=
  C5_take_count [10, 20, 30] 2 10 (by decide) (by decide)

/-- C6, amended.  For n and m whose size_t counters do not wrap, skip(n) then
take(m) over a finite source of length L yields exactly min(m, L - n)
elements in truncated natural subtraction, which is max(0, min(m, L - n)) in
the integers; the boundaries n = 0 and m = 0 are included.  (At wrapped
counter values the claim fails, see the counterexample.) -/
theorem C6_skip_take_count {α : Type} (l : List α) (n m fuel : Nat)
    (hn : n + 1 < WORD) (hm : m + 1 < WORD)
    (hfuel : min m (l.length - n) + 1 ≤ fuel) :
    ∃ s2, CountBuilder.build (TakeStream.ops (SkipStream.ops (IteratorStream.ops α)))
        fuel 0 (TakeStream.mk' (SkipStream.mk' (fromList l) n) m)
      = (s2, .ok (some (min m (l.length - n)))) := by
  have hmkS : SkipStream.mk' (fromList l) n
      = (⟨fromList l, n + 1⟩ : SkipState (IteratorStream α)) := by
    simp [SkipStream.mk', Nat.mod_eq_of_lt hn]
  have hmkT : TakeStream.mk' (⟨fromList l, n + 1⟩ : SkipState (IteratorStream α)) m
      = ⟨⟨fromList l, n + 1⟩, m + 1⟩ := by
    simp [TakeStream.mk', Nat.mod_eq_of_lt hm]
  rw [hmkS, hmkT]
  have hskip : Produces (SkipStream.ops (IteratorStream.ops α)) ⟨fromList l, n + 1⟩
      (l.length - n) := by
    have := skip_produces (n + 1) (by omega) (iter_produces none false l)
    simpa using this
  have htake : Produces (TakeStream.ops (SkipStream.ops (IteratorStream.ops α)))
      ⟨⟨fromList l, n + 1⟩, m + 1⟩ (min m (l.length - n)) := by
    have := take_produces hskip (m + 1) (by omega)
    simpa using this
  exact count_build_of_produces htake rfl fuel hfuel

/-- C6 counterexample at the word boundary: skip(2^64 - 1) wraps its counter
to 0 and skips nothing, so with take(1) over a length-1 source one element is
counted although max(0, min(1, 1 - (2^64 - 1))) = 0. -/
theorem C6_skip_take_count_cex :
    (CountBuilder.build (TakeStream.ops (SkipStream.ops (IteratorStream.ops Nat))) 3 0
        (TakeStream.mk' (SkipStream.mk' (fromList [0]) (WORD - 1)) 1)).2
      = .ok (some 1)
    ∧ min 1 (([0] : List Nat).length - (WORD - 1)) = 0 := by
  exact ⟨rfl, by decide⟩

/-- C6 witness at a concrete non-wrapping input. -/
theorem C6_skip_take_count_witness :
    ∃ s2, CountBuilder.build (TakeStream.ops (SkipStream.ops (IteratorStream.ops Nat)))
        10 0 (TakeStream.mk' (SkipStream.mk' (fromList [0, 1, 2, 3, 4]) 1) 2)
      = (s2, .ok (some (min 2 (([0, 1, 2, 3, 4] : List Nat).length - 1)))) :=
  C6_skip_take_count [0, 1, 2, 3, 4] 1 2 10 (by decide) (by decide) (by decide)

/-- C8: the eager flat combinator over a finite outer stream yielding zero
inner streams has an empty buffer, so std::all_of is vacuously true and
endless() reports true; consequently every endless-guarded terminal builder
raises the non-terminating-pipeline error on it, even though the stream
yields no element at all (its next always returns false). -/
theorem C8_flat_vacuous_endless {ι α γ : Type} (inOps : StreamOps ι α)
    (outer : IteratorStream ι) (fuel : Nat) (f : α → α → α) (lt : α → α → Bool)
    (p : α → Bool) (cont : γ) (ins : γ → α → γ) (h : outer.upcoming = []) :
    FlatStream.endless inOps (FlatStream.mk' outer) = true
    ∧ FlatStream.next inOps (FlatStream.mk' outer) = (false, FlatStream.mk' outer)
    ∧ ForEachBuilder.build (FlatStream.ops inOps) fuel (FlatStream.mk' outer)
        = (FlatStream.mk' outer, .error .endless_stream_exception)
    ∧ ReduceBuilder.build f (FlatStream.ops inOps) fuel (FlatStream.mk' outer)
        = (FlatStream.mk' outer, .error .endless_stream_exception)
    ∧ MinBuilder.build lt (FlatStream.ops inOps) fuel (FlatStream.mk' outer)
        = (FlatStream.mk' outer, .error .endless_stream_exception)
    ∧ MaxBuilder.build lt (FlatStream.ops inOps) fuel (FlatStream.mk' outer)
        = (FlatStream.mk' outer, .error .endless_stream_exception)
    ∧ MinMaxBuilder.build lt (FlatStream.ops inOps) fuel (FlatStream.mk' outer)
        = (FlatStream.mk' outer, .error .endless_stream_exception)
    ∧ AllMatchBuilder.build p (FlatStream.ops inOps) fuel (FlatStream.mk' outer)
        = (FlatStream.mk' outer, .error .endless_stream_exception)
    ∧ AnyMatchBuilder.build p (FlatStream.ops inOps) fuel (FlatStream.mk' outer)
        = (FlatStream.mk' outer, .error .endless_stream_exception)
    ∧ NoneMatchBuilder.build p (FlatStream.ops inOps) fuel (FlatStream.mk' outer)
        = (FlatStream.mk' outer, .error .endless_stream_exception)
    ∧ CountBuilder.build (FlatStream.ops inOps) fuel 0 (FlatStream.mk' outer)
        = (FlatStream.mk' outer, .error .endless_stream_exception)
    ∧ CollectBuilder.build cont ins (FlatStream.ops inOps) fuel (FlatStream.mk' outer)
        = (FlatStream.mk' outer, .error .endless_stream_exception) := by
  obtain ⟨cur, up, u⟩ := outer
  simp only at h
  subst h
  have hst : FlatStream.mk' (⟨cur, [], u⟩ : IteratorStream ι) = ⟨[], 0⟩ := by
    simp [FlatStream.mk', IteratorStream.drainFront]
  have hend : (FlatStream.ops inOps).endless (FlatStream.mk' (⟨cur, [], u⟩ : IteratorStream ι))
      = true := by
    rw [hst]
    rfl
  rw [hst] at hend ⊢
  refine ⟨rfl, ?_, ?_, ?_, ?_, ?_, ?_, ?_, ?_, ?_, ?_, ?_⟩
  · simp [FlatStream.next]
  · exact forEach_build_endless _ fuel _ hend
  · exact reduce_build_endless f _ fuel _ hend
  · exact min_build_endless lt _ fuel _ hend
  · exact max_build_endless lt _ fuel _ hend
  · exact minmax_build_endless lt _ fuel _ hend
  · exact allMatch_build_endless p _ fuel _ hend
  · exact anyMatch_build_endless p _ fuel _ hend
  · exact noneMatch_build_endless p _ fuel _ hend
  · exact count_build_endless _ fuel 0 _ hend
  · exact collect_build_endless cont ins _ fuel _ hend

/-- C8 witness at the concrete empty outer stream. -/
theorem C8_flat_vacuous_endless_witness :
    FlatStream.endless (IteratorStream.ops Nat)
        (FlatStream.mk' (fromList ([] : List (IteratorStream Nat)))) = true
    ∧ ForEachBuilder.build (FlatStream.ops (IteratorStream.ops Nat)) 1
        (FlatStream.mk' (fromList ([] : List (IteratorStream Nat))))
      = (FlatStream.mk' (fromList ([] : List (IteratorStream Nat))),
          .error .endless_stream_exception) := by
  have h := C8_flat_vacuous_endless (IteratorStream.ops Nat)
    (fromList ([] : List (IteratorStream Nat))) 1 (fun a _ => a) (fun _ _ => false)
    (fun _ => true) () (fun g _ => g) rfl
  exact ⟨h.1, h.2.2.1⟩

/-! The min/max terminal builders (claim C2). -/

theorem lt_self_eq_false_of_asym {lt : α → α → Bool}
    (hasym : ∀ a b, lt a b = true → lt b a = false) (a : α) : lt a a = false := by
  cases h : lt a a
  · rfl
  · exact absurd (hasym a a h) (by simp [h])

theorem min_loop_iter (lt : α → α → Bool) :
    ∀ (xs : List α) (cur : Option α) (acc : α) (fuel : Nat), xs.length + 1 ≤ fuel →
    ∃ s2, MinBuilder.loop lt (IteratorStream.ops α) fuel ⟨cur, xs, false⟩ acc
      = some (xs.foldl (fun a x => stdMin lt x a) acc, s2) := by
  intro xs
  induction xs with
  | nil =>
    intro cur acc fuel hfuel
    obtain ⟨f, rfl⟩ : ∃ f, fuel = f + 1 := ⟨fuel - 1, by omega⟩
    exact ⟨⟨cur, [], false⟩,
      by simp [MinBuilder.loop, IteratorStream.ops, IteratorStream.next]⟩
  | cons x xs ih =>
    intro cur acc fuel hfuel
    obtain ⟨f, rfl⟩ : ∃ f, fuel = f + 1 := ⟨fuel - 1, by omega⟩
    have hlen : xs.length + 1 ≤ f := by
      simp only [List.length_cons] at hfuel
      omega
    obtain ⟨s2, h2⟩ := ih (some x) (stdMin lt x acc) f hlen
    refine ⟨s2, ?_⟩
    simp only [MinBuilder.loop, IteratorStream.ops, IteratorStream.next,
      IteratorStream.front, List.foldl_cons]
    simpa using h2

theorem max_loop_iter (lt : α → α → Bool) :
    ∀ (xs : List α) (cur : Option α) (acc : α) (fuel : Nat), xs.length + 1 ≤ fuel →
    ∃ s2, MaxBuilder.loop lt (IteratorStream.ops α) fuel ⟨cur, xs, false⟩ acc
      = some (xs.foldl (fun a x => stdMax lt x a) acc, s2) := by
  intro xs
  induction xs with
  | nil =>
    intro cur acc fuel hfuel
    obtain ⟨f, rfl⟩ : ∃ f, fuel = f + 1 := ⟨fuel - 1, by omega⟩
    exact ⟨⟨cur, [], false⟩,
      by simp [MaxBuilder.loop, IteratorStream.ops, IteratorStream.next]⟩
  | cons x xs ih =>
    intro cur acc fuel hfuel
    obtain ⟨f, rfl⟩ : ∃ f, fuel = f + 1 := ⟨fuel - 1, by omega⟩
    have hlen : xs.length + 1 ≤ f := by
      simp only [List.length_cons] at hfuel
      omega
    obtain ⟨s2, h2⟩ := ih (some x) (stdMax lt x acc) f hlen
    refine ⟨s2, ?_⟩
    simp only [MaxBuilder.loop, IteratorStream.ops, IteratorStream.next,
      IteratorStream.front, List.foldl_cons]
    simpa using h2

theorem minFold_invariant (lt : α → α → Bool)
    (hasym : ∀ a b, lt a b = true → lt b a = false)
    (hneg : ∀ a b c, lt a b = false → lt b c = false → lt a c = false) :
    ∀ (xs p1 p2 : List α) (acc : α),
    (∀ y ∈ p1 ++ acc :: p2, lt y acc = false) →
    (∀ z ∈ p2, ∃ y ∈ p1 ++ acc :: p2, lt y z = true) →
    (∀ y ∈ (p1 ++ acc :: p2) ++ xs,
        lt y (xs.foldl (fun a x => stdMin lt x a) acc) = false)
    ∧ ∃ q1 q2, (p1 ++ acc :: p2) ++ xs
          = q1 ++ (xs.foldl (fun a x => stdMin lt x a) acc) :: q2
        ∧ ∀ z ∈ q2, ∃ y ∈ (p1 ++ acc :: p2) ++ xs, lt y z = true := by
  intro xs
  induction xs with
  | nil =>
    intro p1 p2 acc h1 h2
    refine ⟨by simpa using h1, p1, p2, by simp, ?_⟩
    intro z hz
    obtain ⟨y, hy, hlt⟩ := h2 z hz
    exact ⟨y, by simpa using hy, hlt⟩
  | cons x xs ih =>
    intro p1 p2 acc h1 h2
    simp only [List.foldl_cons]
    cases hx : lt acc x with
    | true =>
      have hstep : stdMin lt x acc = acc := by simp [stdMin, hx]
      rw [hstep]
      have h1' : ∀ y ∈ p1 ++ acc :: (p2 ++ [x]), lt y acc = false := by
        intro y hy
        rcases (by simpa using hy :
            y ∈ p1 ∨ y = acc ∨ y ∈ p2 ∨ y = x) with h | h | h | h
        · exact h1 y (by simp [List.mem_append, List.mem_cons, h])
        · exact h1 y (by simp [List.mem_append, List.mem_cons, h])
        · exact h1 y (by simp [List.mem_append, List.mem_cons, h])
        · subst h
          exact hasym acc y hx
      have h2' : ∀ z ∈ p2 ++ [x], ∃ y ∈ p1 ++ acc :: (p2 ++ [x]), lt y z = true := by
        intro z hz
        rcases List.mem_append.mp hz with hz1 | hz2
        · obtain ⟨y, hy, hlt⟩ := h2 z hz1
          refine ⟨y, ?_, hlt⟩
          rcases (by simpa using hy : y ∈ p1 ∨ y = acc ∨ y ∈ p2) with h | h | h <;>
            simp [List.mem_append, List.mem_cons, h]
        · have hzx : z = x := by simpa using hz2
          subst hzx
          exact ⟨acc, by simp, hx⟩
      have hmain := ih p1 (p2 ++ [x]) acc h1' h2'
      have hl : (p1 ++ acc :: (p2 ++ [x])) ++ xs = (p1 ++ acc :: p2) ++ (x :: xs) := by
        simp
      rw [hl] at hmain
      exact hmain
    | false =>
      have hstep : stdMin lt x acc = x := by simp [stdMin, hx]
      rw [hstep]
      have h1' : ∀ y ∈ (p1 ++ acc :: p2) ++ x :: [], lt y x = false := by
        intro y hy
        rcases (by simpa using hy : y ∈ p1 ∨ y = acc ∨ y ∈ p2 ∨ y = x) with h | h | h | h
        · exact hneg y acc x (h1 y (by simp [List.mem_append, List.mem_cons, h])) hx
        · exact hneg y acc x (h1 y (by simp [List.mem_append, List.mem_cons, h])) hx
        · exact hneg y acc x (h1 y (by simp [List.mem_append, List.mem_cons, h])) hx
        · subst h
          exact lt_self_eq_false_of_asym hasym y
      have h2' : ∀ z ∈ ([] : List α), ∃ y ∈ (p1 ++ acc :: p2) ++ x :: [], lt y z = true := by
        simp
      have hmain := ih (p1 ++ acc :: p2) [] x h1' h2'
      have hl : ((p1 ++ acc :: p2) ++ x :: []) ++ xs = (p1 ++ acc :: p2) ++ (x :: xs) := by
        simp
      rw [hl] at hmain
      exact hmain

theorem maxFold_invariant (lt : α → α → Bool)
    (hasym : ∀ a b, lt a b = true → lt b a = false)
    (hneg : ∀ a b c, lt a b = false → lt b c = false → lt a c = false) :
    ∀ (xs p1 p2 : List α) (acc : α),
    (∀ y ∈ p1 ++ acc :: p2, lt acc y = false) →
    (∀ z ∈ p2, ∃ y ∈ p1 ++ acc :: p2, lt z y = true) →
    (∀ y ∈ (p1 ++ acc :: p2) ++ xs,
        lt (xs.foldl (fun a x => stdMax lt x a) acc) y = false)
    ∧ ∃ q1 q2, (p1 ++ acc :: p2) ++ xs
          = q1 ++ (xs.foldl (fun a x => stdMax lt x a) acc) :: q2
        ∧ ∀ z ∈ q2, ∃ y ∈ (p1 ++ acc :: p2) ++ xs, lt z y = true := by
  intro xs
  induction xs with
  | nil =>
    intro p1 p2 acc h1 h2
    refine ⟨by simpa using h1, p1, p2, by simp, ?_⟩
    intro z hz
    obtain ⟨y, hy, hlt⟩ := h2 z hz
    exact ⟨y, by simpa using hy, hlt⟩
  | cons x xs ih =>
    intro p1 p2 acc h1 h2
    simp only [List.foldl_cons]
    cases hx : lt x acc with
    | true =>
      have hstep : stdMax lt x acc = acc := by simp [stdMax, hx]
      rw [hstep]
      have h1' : ∀ y ∈ p1 ++ acc :: (p2 ++ [x]), lt acc y = false := by
        intro y hy
        rcases (by simpa using hy :
            y ∈ p1 ∨ y = acc ∨ y ∈ p2 ∨ y = x) with h | h | h | h
        · exact h1 y (by simp [List.mem_append, List.mem_cons, h])
        · exact h1 y (by simp [List.mem_append, List.mem_cons, h])
        · exact h1 y (by simp [List.mem_append, List.mem_cons, h])
        · subst h
          exact hasym y acc hx
      have h2' : ∀ z ∈ p2 ++ [x], ∃ y ∈ p1 ++ acc :: (p2 ++ [x]), lt z y = true := by
        intro z hz
        rcases List.mem_append.mp hz with hz1 | hz2
        · obtain ⟨y, hy, hlt⟩ := h2 z hz1
          refine ⟨y, ?_, hlt⟩
          rcases (by simpa using hy : y ∈ p1 ∨ y = acc ∨ y ∈ p2) with h | h | h <;>
            simp [List.mem_append, List.mem_cons, h]
        · have hzx : z = x := by simpa using hz2
          subst hzx
          exact ⟨acc, by simp, hx⟩
      have hmain := ih p1 (p2 ++ [x]) acc h1' h2'
      have hl : (p1 ++ acc :: (p2 ++ [x])) ++ xs = (p1 ++ acc :: p2) ++ (x :: xs) := by
        simp
      rw [hl] at hmain
      exact hmain
    | false =>
      have hstep : stdMax lt x acc = x := by simp [stdMax, hx]
      rw [hstep]
      have h1' : ∀ y ∈ (p1 ++ acc :: p2) ++ x :: [], lt x y = false := by
        intro y hy
        rcases (by simpa using hy : y ∈ p1 ∨ y = acc ∨ y ∈ p2 ∨ y = x) with h | h | h | h
        · exact hneg x acc y hx (h1 y (by simp [List.mem_append, List.mem_cons, h]))
        · exact hneg x acc y hx (h1 y (by simp [List.mem_append, List.mem_cons, h]))
        · exact hneg x acc y hx (h1 y (by simp [List.mem_append, List.mem_cons, h]))
        · subst h
          exact lt_self_eq_false_of_asym hasym y
      have h2' : ∀ z ∈ ([] : List α), ∃ y ∈ (p1 ++ acc :: p2) ++ x :: [], lt z y = true := by
        simp
      have hmain := ih (p1 ++ acc :: p2) [] x h1' h2'
      have hl : ((p1 ++ acc :: p2) ++ x :: []) ++ xs = (p1 ++ acc :: p2) ++ (x :: xs) := by
        simp
      rw [hl] at hmain
      exact hmain

/-- C2, amended.  On a finite non-empty stream and a comparator that is a
strict weak order (asymmetric with a negatively transitive complement), min
returns the LAST encountered element among the minimal ones and max the LAST
encountered among the maximal ones: std::min / std::max are called with the
new element as first argument, so ties replace the stored element
(right-biased, not left-biased). -/
theorem C2_min_max_right_bias {α : Type} (lt : α → α → Bool) (x0 : α) (xs : List α)
    (fuel : Nat)
    (hasym : ∀ a b, lt a b = true → lt b a = false)
    (hneg : ∀ a b c, lt a b = false → lt b c = false → lt a c = false)
    (hfuel : xs.length + 1 ≤ fuel) :
    ((MinBuilder.build lt (IteratorStream.ops α) fuel (fromList (x0 :: xs))).2
      = .ok (some (some (xs.foldl (fun a x => stdMin lt x a) x0))))
    ∧ (∀ y ∈ x0 :: xs, lt y (xs.foldl (fun a x => stdMin lt x a) x0) = false)
    ∧ (∃ l1 l2, x0 :: xs = l1 ++ (xs.foldl (fun a x => stdMin lt x a) x0) :: l2
        ∧ ∀ z ∈ l2, ∃ y ∈ x0 :: xs, lt y z = true)
    ∧ ((MaxBuilder.build lt (IteratorStream.ops α) fuel (fromList (x0 :: xs))).2
      = .ok (some (some (xs.foldl (fun a x => stdMax lt x a) x0))))
    ∧ (∀ y ∈ x0 :: xs, lt (xs.foldl (fun a x => stdMax lt x a) x0) y = false)
    ∧ (∃ l1 l2, x0 :: xs = l1 ++ (xs.foldl (fun a x => stdMax lt x a) x0) :: l2
        ∧ ∀ z ∈ l2, ∃ y ∈ x0 :: xs, lt z y = true) := by
  obtain ⟨s2, hminloop⟩ := min_loop_iter lt xs (some x0) x0 fuel hfuel
  obtain ⟨s3, hmaxloop⟩ := max_loop_iter lt xs (some x0) x0 fuel hfuel
  have hbase1 : ∀ y ∈ ([] : List α) ++ x0 :: ([] : List α), lt y x0 = false := by
    intro y hy
    have : y = x0 := by simpa using hy
    subst this
    exact lt_self_eq_false_of_asym hasym y
  have hbase1m : ∀ y ∈ ([] : List α) ++ x0 :: ([] : List α), lt x0 y = false := by
    intro y hy
    have : y = x0 := by simpa using hy
    subst this
    exact lt_self_eq_false_of_asym hasym y
  have hbase2 : ∀ z ∈ ([] : List α), ∃ y ∈ ([] : List α) ++ x0 :: ([] : List α),
      lt y z = true := by simp
  have hbase2m : ∀ z ∈ ([] : List α), ∃ y ∈ ([] : List α) ++ x0 :: ([] : List α),
      lt z y = true := by simp
  have hmin := minFold_invariant lt hasym hneg xs [] [] x0 hbase1 hbase2
  have hmax := maxFold_invariant lt hasym hneg xs [] [] x0 hbase1m hbase2m
  have hl : (([] : List α) ++ x0 :: ([] : List α)) ++ xs = x0 :: xs := by simp
  rw [hl] at hmin hmax
  have hend : (IteratorStream.ops α).endless (fromList (x0 :: xs)) = false := rfl
  have hnext : (IteratorStream.ops α).next (fromList (x0 :: xs))
      = (true, ⟨some x0, xs, false⟩) := rfl
  have hfront : (IteratorStream.ops α).front (⟨some x0, xs, false⟩ : IteratorStream α)
      = some x0 := rfl
  refine ⟨?_, hmin.1, hmin.2, ?_, hmax.1, hmax.2⟩
  · simp [MinBuilder.build, hend, hnext, hfront, hminloop]
  · simp [MaxBuilder.build, hend, hnext, hfront, hmaxloop]

/-- C2 counterexample to left bias: under a comparator ranking pairs by the
first component only, min and max over the source [(1,0), (1,1)] both return
(1,1), the LATER of the two equally-ranked elements, not the first
encountered one (1,0). -/
theorem C2_min_max_left_bias_cex :
    (MinBuilder.build ltPair (IteratorStream.ops (Nat × Nat)) 3
        (fromList [(1, 0), (1, 1)])).2 = .ok (some (some (1, 1)))
    ∧ (MaxBuilder.build ltPair (IteratorStream.ops (Nat × Nat)) 3
        (fromList [(1, 0), (1, 1)])).2 = .ok (some (some (1, 1)))
    ∧ ltPair (1, 0) (1, 1) = false
    ∧ ltPair (1, 1) (1, 0) = false
    ∧ ((1, 1) : Nat × Nat) ≠ (1, 0) := by
  exact ⟨rfl, rfl, rfl, rfl, by decide⟩

/-- C2 witness at a concrete strict weak order on Fin 2. -/
theorem C2_min_max_right_bias_witness :
    ((MinBuilder.build ltFin (IteratorStream.ops (Fin 2)) 2 (fromList [1, 0])).2
      = .ok (some (some ([(0 : Fin 2)].foldl (fun a x => stdMin ltFin x a) 1))))
    ∧ (∀ y ∈ [(1 : Fin 2), 0], ltFin y ([(0 : Fin 2)].foldl (fun a x => stdMin ltFin x a) 1) = false)
    ∧ (∃ l1 l2, [(1 : Fin 2), 0] = l1 ++ ([(0 : Fin 2)].foldl (fun a x => stdMin ltFin x a) 1) :: l2
        ∧ ∀ z ∈ l2, ∃ y ∈ [(1 : Fin 2), 0], ltFin y z = true)
    ∧ ((MaxBuilder.build ltFin (IteratorStream.ops (Fin 2)) 2 (fromList [1, 0])).2
      = .ok (some (some ([(0 : Fin 2)].foldl (fun a x => stdMax ltFin x a) 1))))
    ∧ (∀ y ∈ [(1 : Fin 2), 0], ltFin ([(0 : Fin 2)].foldl (fun a x => stdMax ltFin x a) 1) y = false)
    ∧ (∃ l1 l2, [(1 : Fin 2), 0] = l1 ++ ([(0 : Fin 2)].foldl (fun a x => stdMax ltFin x a) 1) :: l2
        ∧ ∀ z ∈ l2, ∃ y ∈ [(1 : Fin 2), 0], ltFin z y = true) :=
  C2_min_max_right_bias ltFin 1 [0] 2 (by decide) (by decide) (by decide)

/-! The sort combinator (claim C7). -/

theorem drop_cons_of_get? :
    ∀ (l : List α) (i : Nat) (x : α), l.get? i = some x → l.drop i = x :: l.drop (i + 1) := by
  intro l
  induction l with
  | nil => intro i x h; cases i <;> simp at h
  | cons y ys ih =>
    intro i x h
    cases i with
    | zero =>
      simp at h
      subst h
      rfl
    | succ i =>
      simp only [List.get?] at h
      show (y :: ys).drop (i + 1) = x :: (y :: ys).drop (i + 2)
      simp only [List.drop_succ_cons]
      exact ih i x h

theorem drop_of_length_le :
    ∀ (l : List α) (i : Nat), l.length ≤ i → l.drop i = [] := by
  intro l
  induction l with
  | nil => intro i _; simp
  | cons y ys ih =>
    intro i h
    cases i with
    | zero => simp at h
    | succ i =>
      simp only [List.drop_succ_cons]
      exact ih i (by simp at h; omega)

theorem get?_some_of_lt :
    ∀ (l : List α) (i : Nat), i < l.length → ∃ x, l.get? i = some x := by
  intro l
  induction l with
  | nil => intro i h; simp at h
  | cons y ys ih =>
    intro i h
    cases i with
    | zero => exact ⟨y, rfl⟩
    | succ i => exact ih i (by simp at h; omega)

theorem mem_insertSorted (lt : α → α → Bool) (x : α) :
    ∀ (l : List α) (z : α), z ∈ insertSorted lt x l ↔ z = x ∨ z ∈ l := by
  intro l
  induction l with
  | nil => intro z; simp [insertSorted]
  | cons y ys ih =>
    intro z
    simp only [insertSorted]
    split
    · simp only [List.mem_cons, ih z]
      tauto
    · simp only [List.mem_cons]

theorem insertSorted_perm (lt : α → α → Bool) (x : α) :
    ∀ l : List α, (insertSorted lt x l).Perm (x :: l) := by
  intro l
  induction l with
  | nil => simp [insertSorted]
  | cons y ys ih =>
    simp only [insertSorted]
    split
    · exact (List.Perm.cons y ih).trans (List.Perm.swap x y ys)
    · exact List.Perm.refl _

theorem stableSort_perm (lt : α → α → Bool) :
    ∀ l : List α, (stableSort lt l).Perm l := by
  intro l
  induction l with
  | nil => simp [stableSort]
  | cons x xs ih =>
    exact (insertSorted_perm lt x (stableSort lt xs)).trans (List.Perm.cons x ih)

theorem pairwise_insertSorted (lt : α → α → Bool)
    (hasym : ∀ a b, lt a b = true → lt b a = false)
    (hneg : ∀ a b c, lt a b = false → lt b c = false → lt a c = false) (x : α) :
    ∀ l : List α, l.Pairwise (fun a b => lt b a = false) →
    (insertSorted lt x l).Pairwise (fun a b => lt b a = false) := by
  intro l
  induction l with
  | nil => intro _; simp [insertSorted]
  | cons y ys ih =>
    intro h
    rw [List.pairwise_cons] at h
    simp only [insertSorted]
    split
    · rename_i hyx
      rw [List.pairwise_cons]
      constructor
      · intro z hz
        rcases (mem_insertSorted lt x ys z).mp hz with hzx | hzy
        · subst hzx
          exact hasym y z hyx
        · exact h.1 z hzy
      · exact ih h.2
    · rename_i hyx
      have hyx' : lt y x = false := by
        revert hyx
        cases lt y x <;> simp
      rw [List.pairwise_cons]
      constructor
      · intro z hz
        rcases List.mem_cons.mp hz with hzy | hzys
        · subst hzy
          exact hyx'
        · exact hneg z y x (h.1 z hzys) hyx'
      · rw [List.pairwise_cons]
        exact h

theorem pairwise_stableSort (lt : α → α → Bool)
    (hasym : ∀ a b, lt a b = true → lt b a = false)
    (hneg : ∀ a b c, lt a b = false → lt b c = false → lt a c = false) :
    ∀ l : List α, (stableSort lt l).Pairwise (fun a b => lt b a = false) := by
  intro l
  induction l with
  | nil => simp [stableSort]
  | cons x xs ih => exact pairwise_insertSorted lt hasym hneg x (stableSort lt xs) ih

theorem filter_insertSorted (lt : α → α → Bool) (p : α → Bool)
    (hp : ∀ a b, p a = true → p b = true → lt a b = false) (x : α) :
    ∀ l : List α, (insertSorted lt x l).filter p
      = if p x then x :: l.filter p else l.filter p := by
  intro l
  induction l with
  | nil =>
    simp only [insertSorted]
    cases hpx : p x <;> simp [List.filter, hpx]
  | cons y ys ih =>
    simp only [insertSorted]
    split
    · rename_i hyx
      rw [List.filter_cons, ih, List.filter_cons]
      by_cases hpx : p x = true
      · have hpy : p y = false := by
          cases hpy' : p y
          · rfl
          · exact absurd (hp y x hpy' hpx) (by simp [hyx])
        simp [hpx, hpy]
      · have hpx' : p x = false := by
          revert hpx
          cases p x <;> simp
        simp [hpx', List.filter_cons]
    · rw [List.filter_cons]

theorem filter_stableSort (lt : α → α → Bool) (p : α → Bool)
    (hp : ∀ a b, p a = true → p b = true → lt a b = false) :
    ∀ l : List α, (stableSort lt l).filter p = l.filter p := by
  intro l
  induction l with
  | nil => rfl
  | cons x xs ih =>
    show (insertSorted lt x (stableSort lt xs)).filter p = (x :: xs).filter p
    rw [filter_insertSorted lt p hp x (stableSort lt xs), ih, List.filter_cons]

theorem drainFront_spec (s : IteratorStream α) :
    s.drainFront.2 = s.upcoming ∧ s.drainFront.1.upcoming = []
    ∧ s.drainFront.1.unchecked = s.unchecked := by
  obtain ⟨cur, up, u⟩ := s
  induction up generalizing cur with
  | nil => simp [IteratorStream.drainFront]
  | cons x xs ih =>
    have h := ih (some x)
    refine ⟨?_, ?_, ?_⟩ <;>
      simp [IteratorStream.drainFront, h.1, h.2.1, h.2.2]

theorem sort_serve (lt : α → α → Bool) (s : IteratorStream α) (sorted : List α) :
    ∀ (fuel i : Nat), 1 ≤ i → sorted.length - i + 1 ≤ fuel →
    ∃ s2, drainList (SortStream.ops lt) fuel ⟨s, sorted, i⟩ = some (sorted.drop i, s2) := by
  intro fuel
  induction fuel with
  | zero => intro i _ h; omega
  | succ f ih =>
    intro i hi hfuel
    have hnext : (SortStream.ops lt).next ⟨s, sorted, i⟩
        = (decide (i < sorted.length), ⟨s, sorted, i + 1⟩) := by
      show SortStream.next lt ⟨s, sorted, i⟩ = _
      simp only [SortStream.next]
      rw [if_neg (by omega)]
    by_cases hlen : i < sorted.length
    · obtain ⟨v, hv⟩ := get?_some_of_lt sorted i hlen
      have hfront : (SortStream.ops lt).front (⟨s, sorted, i + 1⟩ : SortState α)
          = some v := by
        show sorted.get? (i + 1 - 1) = some v
        simpa using hv
      obtain ⟨s2, h2⟩ := ih (i + 1) (by omega) (by omega)
      refine ⟨s2, ?_⟩
      simp only [drainList, hnext, hfront]
      rw [if_pos (by simp [hlen])]
      simp only [h2]
      rw [drop_cons_of_get? sorted i v hv]
    · refine ⟨⟨s, sorted, i + 1⟩, ?_⟩
      simp only [drainList, hnext]
      rw [if_neg (by simp [hlen])]
      rw [drop_of_length_le sorted i (by omega)]

/-- C7: sort(cmp) drains the whole upstream on its first advance (the
upstream cursor is exhausted and the buffer holds a stable sort of exactly
the upstream elements), then serves precisely that buffer; the served
sequence is a permutation of the upstream elements, and for a comparator that
is a strict weak order it is sorted and stable: for every value v, the
subsequence of elements equally ranked with v is exactly the corresponding
subsequence of the original stream, in original order. -/
theorem C7_sort_stable {α : Type} (lt : α → α → Bool) (l : List α) (fuel : Nat)
    (hfuel : l.length + 2 ≤ fuel) :
    ((SortStream.next lt (SortStream.mk' (fromList l))).2.stream.upcoming = []
      ∧ (SortStream.next lt (SortStream.mk' (fromList l))).2.sorted = stableSort lt l)
    ∧ (∃ s2, drainList (SortStream.ops lt) fuel (SortStream.mk' (fromList l))
        = some (stableSort lt l, s2))
    ∧ (stableSort lt l).Perm l
    ∧ ((∀ a b, lt a b = true → lt b a = false) →
       (∀ a b c, lt a b = false → lt b c = false → lt a c = false) →
       (stableSort lt l).Pairwise (fun a b => lt b a = false)
       ∧ ∀ v, (stableSort lt l).filter (fun z => !lt z v && !lt v z)
           = l.filter (fun z => !lt z v && !lt v z)) := by
  have hperm := stableSort_perm lt l
  have hlen : (stableSort lt l).length = l.length := hperm.length_eq
  have hdf := drainFront_spec (fromList l)
  have hfirst : SortStream.next lt (SortStream.mk' (fromList l))
      = (decide (0 < (stableSort lt l).length),
          ⟨(fromList l).drainFront.1, stableSort lt l, 1⟩) := by
    show SortStream.next lt ⟨fromList l, [], 0⟩ = _
    simp only [SortStream.next, if_pos rfl]
    rw [hdf.1]
    simp [fromList]
  refine ⟨?_, ?_, hperm, ?_⟩
  · rw [hfirst]
    exact ⟨hdf.2.1, rfl⟩
  · obtain ⟨f, rfl⟩ : ∃ f, fuel = f + 1 := ⟨fuel - 1, by omega⟩
    cases hsl : stableSort lt l with
    | nil =>
      have hb : (SortStream.ops lt).next (SortStream.mk' (fromList l))
          = (false, ⟨(fromList l).drainFront.1, stableSort lt l, 1⟩) := by
        show SortStream.next lt (SortStream.mk' (fromList l)) = _
        rw [hfirst]
        simp [hsl]
      refine ⟨⟨(fromList l).drainFront.1, stableSort lt l, 1⟩, ?_⟩
      simp [drainList, hb, hsl]
    | cons v vs =>
      have hb : (SortStream.ops lt).next (SortStream.mk' (fromList l))
          = (true, ⟨(fromList l).drainFront.1, stableSort lt l, 1⟩) := by
        show SortStream.next lt (SortStream.mk' (fromList l)) = _
        rw [hfirst]
        simp [hsl]
      have hv : (stableSort lt l).get? 0 = some v := by simp [hsl]
      have hfront : (SortStream.ops lt).front
          (⟨(fromList l).drainFront.1, stableSort lt l, 1⟩ : SortState α) = some v := by
        show (stableSort lt l).get? (1 - 1) = some v
        simpa using hv
      obtain ⟨s2, h2⟩ := sort_serve lt (fromList l).drainFront.1 (stableSort lt l) f 1
        (by omega) (by omega)
      refine ⟨s2, ?_⟩
      simp only [drainList, hb]
      rw [if_pos trivial, hfront]
      rw [hsl] at h2 ⊢
      simp [h2]
  · intro hasym hneg
    refine ⟨pairwise_stableSort lt hasym hneg l, ?_⟩
    intro v
    refine filter_stableSort lt (fun z => !lt z v && !lt v z) ?_ l
    intro a b ha hb
    simp only [Bool.and_eq_true, Bool.not_eq_true'] at ha hb
    exact hneg a v b ha.1 hb.2

/-- C7 witness at a concrete comparator and source. -/
theorem C7_sort_stable_witness :
    ((SortStream.next ltFin (SortStream.mk' (fromList [1, 0, 1]))).2.stream.upcoming = []
      ∧ (SortStream.next ltFin (SortStream.mk' (fromList [1, 0, 1]))).2.sorted
        = stableSort ltFin [1, 0, 1])
    ∧ (∃ s2, drainList (SortStream.ops ltFin) 5 (SortStream.mk' (fromList [1, 0, 1]))
        = some (stableSort ltFin [1, 0, 1], s2))
    ∧ (stableSort ltFin [1, 0, 1]).Perm [1, 0, 1]
    ∧ ((∀ a b, ltFin a b = true → ltFin b a = false) →
       (∀ a b c, ltFin a b = false → ltFin b c = false → ltFin a c = false) →
       (stableSort ltFin [1, 0, 1]).Pairwise (fun a b => ltFin b a = false)
       ∧ ∀ v, (stableSort ltFin [1, 0, 1]).filter (fun z => !ltFin z v && !ltFin v z)
           = [1, 0, 1].filter (fun z => !ltFin z v && !ltFin v z)) :=
  C7_sort_stable ltFin [1, 0, 1] 5 (by decide)

/-- C10: in the lazy (non-draining) endless flat combinator, when the current
inner stream is exhausted and the inner stream freshly pulled from the outer
stream is itself empty, that advance returns false although a further
non-empty inner stream remains; the latch left stays true, so the false is
not permanent exhaustion: the next advance pulls the following inner stream
and returns true, surfacing its first element. -/
theorem C10_endless_flat_empty_inner {α : Type}
    (e inner0 inner1 : IteratorStream α) (rest : List (IteratorStream α))
    (u : Bool) (z : α) (zs : List α)
    (he : e.upcoming = []) (h0 : inner0.upcoming = [])
    (h1 : inner1.upcoming = z :: zs) :
    (EndlessFlatStream.next (IteratorStream.ops α)
        ⟨⟨some e, inner0 :: inner1 :: rest, u⟩, true⟩).1 = false
    ∧ (EndlessFlatStream.next (IteratorStream.ops α)
        ⟨⟨some e, inner0 :: inner1 :: rest, u⟩, true⟩).2.left = true
    ∧ (EndlessFlatStream.next (IteratorStream.ops α)
        (EndlessFlatStream.next (IteratorStream.ops α)
          ⟨⟨some e, inner0 :: inner1 :: rest, u⟩, true⟩).2).1 = true
    ∧ EndlessFlatStream.front (IteratorStream.ops α)
        (EndlessFlatStream.next (IteratorStream.ops α)
          (EndlessFlatStream.next (IteratorStream.ops α)
            ⟨⟨some e, inner0 :: inner1 :: rest, u⟩, true⟩).2).2 = some z := by
  obtain ⟨ec, eup, eu⟩ := e
  obtain ⟨c0, up0, u0⟩ := inner0
  obtain ⟨c1, up1, u1⟩ := inner1
  simp only at he h0 h1
  subst he h0 h1
  exact ⟨rfl, rfl, rfl, rfl⟩

/-- C10 witness at concrete inner streams. -/
theorem C10_endless_flat_empty_inner_witness :
    (EndlessFlatStream.next (IteratorStream.ops Nat)
        ⟨⟨some ⟨none, [], false⟩, fromList [] :: fromList [7] :: [], false⟩, true⟩).1 = false
    ∧ (EndlessFlatStream.next (IteratorStream.ops Nat)
        ⟨⟨some ⟨none, [], false⟩, fromList [] :: fromList [7] :: [], false⟩, true⟩).2.left = true
    ∧ (EndlessFlatStream.next (IteratorStream.ops Nat)
        (EndlessFlatStream.next (IteratorStream.ops Nat)
          ⟨⟨some ⟨none, [], false⟩, fromList [] :: fromList [7] :: [], false⟩, true⟩).2).1 = true
    ∧ EndlessFlatStream.front (IteratorStream.ops Nat)
        (EndlessFlatStream.next (IteratorStream.ops Nat)
          (EndlessFlatStream.next (IteratorStream.ops Nat)
            ⟨⟨some ⟨none, [], false⟩, fromList [] :: fromList [7] :: [], false⟩, true⟩).2).2
      = some 7 :=
  C10_endless_flat_empty_inner ⟨none, [], false⟩ (fromList []) (fromList [7]) [] false 7 []
    rfl rfl rfl

end cppStream
